import Mathlib

/-!
Shallow embedding of the filtering and aggregation engine of the sales
dashboard (`src/app.py`).

The dashboard works over two pandas tables, `sales_df` (transactions) and
`customer_df` (customers).  We embed rows as Lean structures, tables as
lists of rows, calendar dates as integers (day ordinals, which is all the
comparisons in the code need), and monetary amounts as rationals.

The code's operations embedded here:
  * `filtered_sales`   — the boolean-mask filter, `app.py` lines 73–78;
  * `total_sales`, `transaction_count`, `avg_transaction`,
    `unique_customers` — the KPI row, lines 84–96;
  * `groupSum`         — `filtered_sales.groupby(k)['total'].sum()`,
    the shared shape of lines 110, 124, 137, 151, 231, 244, 258;
  * `sortDesc` / `topN` — `.sort_values(ascending=False)` and `.head(n)`,
    lines 231 and 244;
  * `daily_sales` / `cumsum` — the per-date rollup and running total,
    lines 258 and 272 (pandas `groupby('date')` sorts keys ascending);
  * `cut` / `ageGroup` / `assignAgeGroup` / `age_dist` — the
    `pd.cut` age bucketing and the in-place `customer_df['age_group']`
    assignment followed by `value_counts().sort_index()`, lines 170–172.
-/

namespace Dashboard

/-- A row of `sales_df` (after `load_data` date coercion): the columns the
dashboard reads.  `date` is a day ordinal, `total` a rational amount. -/
structure Transaction where
  date : Int
  customer_id : Nat
  name : String
  product_name : String
  category : String
  price : ℚ
  quantity : Nat
  total : ℚ
  payment : String
  region : String
  grade : String
deriving DecidableEq

/-- A row of `customer_df`.  `age_group` is the derived column that
line 170 of `app.py` writes onto the table in place; before that
assignment it is absent, which we render as `none`. -/
structure Customer where
  customer_id : Nat
  name : String
  age : Int
  gender : String
  region : String
  segment : String
  age_group : Option String := none
deriving DecidableEq

/-- `app.py` lines 73–78: the filter mask
`(date >= date_range[0]) & (date <= date_range[1]) & region.isin(regions)
 & category.isin(categories)` applied to `sales_df`. -/
def filtered_sales (df : List Transaction) (date_start date_end : Int)
    (regions categories : List String) : List Transaction :=
  df.filter (fun r =>
    decide (date_start ≤ r.date) && decide (r.date ≤ date_end) &&
    regions.contains r.region && categories.contains r.category)

/-- `app.py` line 84: `filtered_sales['total'].sum()`. -/
def total_sales (df : List Transaction) : ℚ :=
  (df.map (·.total)).sum

/-- `app.py` line 88: `len(filtered_sales)`. -/
def transaction_count (df : List Transaction) : Nat :=
  df.length

/-- pandas `Series.mean()`: sum over length. -/
def mean (l : List ℚ) : ℚ :=
  l.sum / l.length

/-- `app.py` line 92:
`filtered_sales['total'].mean() if transaction_count > 0 else 0`. -/
def avg_transaction (df : List Transaction) : ℚ :=
  if transaction_count df > 0 then mean (df.map (·.total)) else 0

/-- `app.py` line 96: `filtered_sales['customer_id'].nunique()`. -/
def unique_customers (df : List Transaction) : Nat :=
  (df.map (·.customer_id)).dedup.length

end Dashboard

namespace Dashboard

/-- C1 example table: two rows on days 1 and 2, regions North/South,
categories A/B (the spec's §8 example scenario). -/
def sampleDf : List Transaction :=
  [{ date := 1, customer_id := 1, name := "Kim", product_name := "P1",
     category := "A", price := 100, quantity := 1, total := 100,
     payment := "card", region := "North", grade := "VIP" },
   { date := 2, customer_id := 2, name := "Lee", product_name := "P2",
     category := "B", price := 200, quantity := 1, total := 200,
     payment := "cash", region := "South", grade := "Gold" }]

end Dashboard

namespace Dashboard

/-- **C1.** A record appears in the filtered table iff its date lies in the
selected range and its region and category belong to the selected sets;
with an empty region or category selection the filtered table is empty. -/
theorem filtered_sales_mem_iff (df : List Transaction)
    (date_start date_end : Int) (regions categories : List String) :
    (∀ r : Transaction,
        r ∈ filtered_sales df date_start date_end regions categories ↔
          r ∈ df ∧ date_start ≤ r.date ∧ r.date ≤ date_end ∧
            r.region ∈ regions ∧ r.category ∈ categories) ∧
    (regions = [] ∨ categories = [] →
        filtered_sales df date_start date_end regions categories = []) := by
  constructor
  · intro r
    simp [filtered_sales, List.mem_filter, and_assoc]
  · rintro (rfl | rfl) <;>
      simp [filtered_sales]

/-- Witness for C1: evaluating the filter on the concrete sample table with
the spec's §8 criteria, and on an empty category selection. -/
theorem filtered_sales_mem_iff_witness :
    ((sampleDf.get ⟨0, by decide⟩) ∈ filtered_sales sampleDf 1 2 ["North"] ["A", "B"]) ∧
    filtered_sales sampleDf 1 2 [] ["A", "B"] = [] := by
  refine ⟨?_, ?_⟩
  · exact ((filtered_sales_mem_iff sampleDf 1 2 ["North"] ["A", "B"]).1 _).2
      (by constructor <;> decide)
  · exact (filtered_sales_mem_iff sampleDf 1 2 [] ["A", "B"]).2 (Or.inl rfl)

/-- **C8.** The average-transaction KPI equals `total_sales / transaction_count`
when the filtered table is non-empty, and is `0` on the empty table: the
guarded branch means the division never happens at count `0`. -/
theorem avg_transaction_spec (df : List Transaction) :
    (0 < transaction_count df →
        avg_transaction df = total_sales df / (transaction_count df : ℚ)) ∧
    (df = [] → avg_transaction df = 0) := by
  constructor
  · intro h
    simp only [avg_transaction, transaction_count, mean, total_sales]
    rw [if_pos (by simpa [transaction_count] using h)]
    simp
  · rintro rfl
    simp [avg_transaction, transaction_count]

/-- Witness for C8 at the two-row sample table and at the empty table. -/
theorem avg_transaction_spec_witness :
    avg_transaction sampleDf = total_sales sampleDf / (transaction_count sampleDf : ℚ) ∧
    avg_transaction ([] : List Transaction) = 0 :=
  ⟨(avg_transaction_spec sampleDf).1 (by decide),
   (avg_transaction_spec ([] : List Transaction)).2 rfl⟩

end Dashboard

namespace Dashboard

/-- **C6, counterexample.** With `date_start = 5 > 3 = date_end` the code of
lines 73–78 contains no validity check and raises nothing: it evaluates the
unsatisfiable date conjunction and returns the empty table as an ordinary
result, contradicting the claim that an `InvalidCriteria` error is raised
rather than a (possibly empty) result returned. -/
theorem filtered_sales_inverted_range_cex :
    (3 : Int) < 5 ∧
    filtered_sales sampleDf 5 3 ["North", "South"] ["A", "B"] = [] := by
  constructor <;> decide

/-- **C6, amended.** For criteria with `date_start > date_end` the engine
raises no error and returns the empty filtered table: the two date
conditions are jointly unsatisfiable, so no record passes the mask. -/
theorem filtered_sales_inverted_range (df : List Transaction)
    (date_start date_end : Int) (regions categories : List String)
    (h : date_end < date_start) :
    filtered_sales df date_start date_end regions categories = [] := by
  rw [filtered_sales, List.filter_eq_nil_iff]
  intro r _
  simp only [Bool.and_eq_true, decide_eq_true_eq, not_and]
  intro h1 h2
  omega

/-- Witness for the amended C6 at a concrete inverted range. -/
theorem filtered_sales_inverted_range_witness :
    filtered_sales sampleDf 7 2 ["North"] ["A"] = [] :=
  filtered_sales_inverted_range sampleDf 7 2 ["North"] ["A"] (by decide)

/-- `foldl min` is bounded by its initial accumulator. -/
theorem foldl_min_le_init (x : Int) (xs : List Int) : xs.foldl min x ≤ x := by
  induction xs generalizing x with
  | nil => simp
  | cons y ys ih => exact le_trans (ih (min x y)) (min_le_left x y)

/-- `foldl min` is bounded by every list element. -/
theorem foldl_min_le_mem {b : Int} (x : Int) (xs : List Int) (hb : b ∈ xs) :
    xs.foldl min x ≤ b := by
  induction xs generalizing x with
  | nil => cases hb
  | cons y ys ih =>
    rcases List.mem_cons.mp hb with rfl | hb
    · exact le_trans (foldl_min_le_init (min x b) ys) (min_le_right x b)
    · exact ih (min x y) hb

/-- `foldl max` dominates its initial accumulator. -/
theorem init_le_foldl_max (x : Int) (xs : List Int) : x ≤ xs.foldl max x := by
  induction xs generalizing x with
  | nil => simp
  | cons y ys ih => exact le_trans (le_max_left x y) (ih (max x y))

/-- `foldl max` dominates every list element. -/
theorem mem_le_foldl_max {b : Int} (x : Int) (xs : List Int) (hb : b ∈ xs) :
    b ≤ xs.foldl max x := by
  induction xs generalizing x with
  | nil => cases hb
  | cons y ys ih =>
    rcases List.mem_cons.mp hb with rfl | hb
    · exact le_trans (le_max_right x b) (init_le_foldl_max (max x b) ys)
    · exact ih (max x y) hb

/-- The `min?` of a list, defaulted, bounds each member from below. -/
theorem min?_getD_le {l : List Int} {b : Int} (hb : b ∈ l) :
    (l.min?).getD 0 ≤ b := by
  cases l with
  | nil => cases hb
  | cons x xs =>
    show (some (xs.foldl min x)).getD 0 ≤ b
    rw [Option.getD_some]
    rcases List.mem_cons.mp hb with rfl | hb
    · exact foldl_min_le_init b xs
    · exact foldl_min_le_mem x xs hb

/-- The `max?` of a list, defaulted, bounds each member from above. -/
theorem le_max?_getD {l : List Int} {b : Int} (hb : b ∈ l) :
    b ≤ (l.max?).getD 0 := by
  cases l with
  | nil => cases hb
  | cons x xs =>
    show b ≤ (some (xs.foldl max x)).getD 0
    rw [Option.getD_some]
    rcases List.mem_cons.mp hb with rfl | hb
    · exact init_le_foldl_max b xs
    · exact mem_le_foldl_max x xs hb

/-- **C10.** Filtering with the dashboard's default widget state — date
range `[sales_df.date.min(), sales_df.date.max()]` and the region and
category selections defaulted to all distinct values present (`app.py`
lines 51–70) — retains every record, returning the table unchanged. -/
theorem filtered_sales_identity (df : List Transaction) (h : df ≠ []) :
    filtered_sales df
      (((df.map (·.date)).min?).getD 0)
      (((df.map (·.date)).max?).getD 0)
      ((df.map (·.region)).dedup)
      ((df.map (·.category)).dedup) = df := by
  rw [filtered_sales, List.filter_eq_self]
  intro r hr
  have h1 : ((df.map (·.date)).min?).getD 0 ≤ r.date :=
    min?_getD_le (List.mem_map_of_mem (·.date) hr)
  have h2 : r.date ≤ ((df.map (·.date)).max?).getD 0 :=
    le_max?_getD (List.mem_map_of_mem (·.date) hr)
  have h3 : r.region ∈ (df.map (·.region)).dedup :=
    List.mem_dedup.mpr (List.mem_map_of_mem (·.region) hr)
  have h4 : r.category ∈ (df.map (·.category)).dedup :=
    List.mem_dedup.mpr (List.mem_map_of_mem (·.category) hr)
  simp [h1, h2, h3, h4]

/-- Witness for C10: on the sample table the default criteria are the
range `[1, 2]` with all regions and categories, and the filter is the
identity. -/
theorem filtered_sales_identity_witness :
    filtered_sales sampleDf
      (((sampleDf.map (·.date)).min?).getD 0)
      (((sampleDf.map (·.date)).max?).getD 0)
      ((sampleDf.map (·.region)).dedup)
      ((sampleDf.map (·.category)).dedup) = sampleDf :=
  filtered_sales_identity sampleDf (by decide)

end Dashboard

namespace Dashboard

/-- pandas `df.groupby(key)['total'].sum()`, before any value sort: one
entry per distinct key value present in `df`, carrying the sum of `total`
over that key's rows (`app.py` lines 110, 124, 137, 151, 231, 244).
Generic in the key column so the same definition serves region, category,
payment, grade, product, customer name and date groupings. -/
def groupSum {β : Type} [DecidableEq β] (df : List Transaction)
    (key : Transaction → β) : List (β × ℚ) :=
  (df.map key).dedup.map
    (fun k => (k, total_sales (df.filter (fun r => decide (key r = k)))))

/-- pandas `.sort_values(ascending=False)` on a key→value series: sort the
entries so the value components are non-increasing.  (pandas does not
guarantee a stable sort here; any correct sort embeds it, and we pick the
structurally recursive insertion sort.) -/
def sortDesc {β : Type} (l : List (β × ℚ)) : List (β × ℚ) :=
  l.insertionSort (fun a b => b.2 ≤ a.2)

/-- `sortDesc` is a permutation of its input. -/
theorem sortDesc_perm {β : Type} (l : List (β × ℚ)) :
    (sortDesc l).Perm l :=
  List.perm_insertionSort _ l

/-- `app.py` line 110: `filtered_sales.groupby('region')['total'].sum()
.sort_values(ascending=False)`. -/
def region_sales (df : List Transaction) : List (String × ℚ) :=
  sortDesc (groupSum df (·.region))

/-- Splitting a mapped sum along a boolean predicate on the rows. -/
theorem sum_map_filter_split {α : Type} (v : α → ℚ) (p : α → Bool) :
    ∀ l : List α,
      ((l.filter p).map v).sum + ((l.filter (fun x => !(p x))).map v).sum
        = (l.map v).sum := by
  intro l
  induction l with
  | nil => simp
  | cons x xs ih =>
    cases hx : p x <;>
      simp [List.filter_cons, hx, ← ih] <;> ring

/-- Rows with key `k` removed do not affect the fiber of a different key. -/
theorem filter_fiber_of_ne {α β : Type} [DecidableEq β] (f : α → β)
    {k k' : β} (hne : k' ≠ k) (l : List α) :
    (l.filter (fun x => !(decide (f x = k)))).filter
        (fun x => decide (f x = k'))
      = l.filter (fun x => decide (f x = k')) := by
  rw [List.filter_filter]
  refine List.filter_congr ?_
  intro x _
  by_cases hx : f x = k'
  · simp [hx, hne]
  · simp [hx]

/-- Fiberwise decomposition: summing the per-key fiber sums over any
duplicate-free list of keys that covers the rows recovers the total sum. -/
theorem sum_fiberwise {α β : Type} [DecidableEq β] (v : α → ℚ) (f : α → β) :
    ∀ (keys : List β) (l : List α), keys.Nodup → (∀ x ∈ l, f x ∈ keys) →
      (keys.map
          (fun k => ((l.filter (fun x => decide (f x = k))).map v).sum)).sum
        = (l.map v).sum := by
  intro keys
  induction keys with
  | nil =>
    intro l _ hcov
    have : l = [] := List.eq_nil_iff_forall_not_mem.mpr
      (fun x hx => by simpa using hcov x hx)
    subst this
    simp
  | cons k ks ih =>
    intro l hnd hcov
    have hnd' : ks.Nodup := (List.nodup_cons.mp hnd).2
    have hkk : k ∉ ks := (List.nodup_cons.mp hnd).1
    set l' := l.filter (fun x => !(decide (f x = k))) with hl'
    have hcov' : ∀ x ∈ l', f x ∈ ks := by
      intro x hx
      have hxl : x ∈ l := List.mem_of_mem_filter hx
      have hxk : ¬ (f x = k) := by
        have := List.of_mem_filter hx
        simpa using this
      rcases List.mem_cons.mp (hcov x hxl) with h | h
      · exact absurd h hxk
      · exact h
    have hfib : ∀ k' ∈ ks,
        ((l.filter (fun x => decide (f x = k'))).map v).sum
          = ((l'.filter (fun x => decide (f x = k'))).map v).sum := by
      intro k' hk'
      have hne : k' ≠ k := fun h => hkk (h ▸ hk')
      rw [filter_fiber_of_ne f hne]
    calc (List.map
            (fun k => ((l.filter (fun x => decide (f x = k))).map v).sum)
            (k :: ks)).sum
        = ((l.filter (fun x => decide (f x = k))).map v).sum
            + (ks.map (fun k' =>
                ((l.filter (fun x => decide (f x = k'))).map v).sum)).sum := by
          simp
      _ = ((l.filter (fun x => decide (f x = k))).map v).sum
            + (ks.map (fun k' =>
                ((l'.filter (fun x => decide (f x = k'))).map v).sum)).sum := by
          rw [List.map_congr_left hfib]
      _ = ((l.filter (fun x => decide (f x = k))).map v).sum
            + (l'.map v).sum := by
          rw [ih l' hnd' hcov']
      _ = (l.map v).sum := sum_map_filter_split v _ l

/-- The values column of `groupSum` sums to `total_sales`. -/
theorem groupSum_sum (df : List Transaction) {β : Type} [DecidableEq β]
    (key : Transaction → β) :
    ((groupSum df key).map Prod.snd).sum = total_sales df := by
  unfold groupSum total_sales
  rw [List.map_map]
  exact sum_fiberwise (·.total) key (df.map key).dedup df (List.nodup_dedup _)
    (fun x hx => List.mem_dedup.mpr (List.mem_map_of_mem key hx))

/-- **C2.** For every table, criteria and grouping dimension, the per-group
values of the group aggregator (including the descending value sort the
code applies) over the filtered table sum to the `total_sales` KPI of the
same filtered table. -/
theorem group_totals_partition (df : List Transaction)
    (date_start date_end : Int) (regions categories : List String)
    {β : Type} [DecidableEq β] (key : Transaction → β) :
    ((sortDesc (groupSum
          (filtered_sales df date_start date_end regions categories)
          key)).map Prod.snd).sum
      = total_sales (filtered_sales df date_start date_end regions categories) := by
  set X := filtered_sales df date_start date_end regions categories
  calc ((sortDesc (groupSum X key)).map Prod.snd).sum
      = ((groupSum X key).map Prod.snd).sum :=
        List.Perm.sum_eq (List.Perm.map Prod.snd (sortDesc_perm _))
    _ = total_sales X := groupSum_sum X key

end Dashboard

namespace Dashboard

/-- pandas `.head(n)` after the descending value sort: the top-n ranker.
`app.py` lines 231 and 244 instantiate it with `n = 10`. -/
def topN {β : Type} [DecidableEq β] (df : List Transaction)
    (key : Transaction → β) (n : Nat) : List (β × ℚ) :=
  (sortDesc (groupSum df key)).take n

/-- `app.py` line 231: `filtered_sales.groupby('product_name')['total']
.sum().sort_values(ascending=False).head(10)`. -/
def top_products (df : List Transaction) : List (String × ℚ) :=
  topN df (·.product_name) 10

/-- `app.py` line 244: `filtered_sales.groupby('name')['total']
.sum().sort_values(ascending=False).head(10)`. -/
def top_customers (df : List Transaction) : List (String × ℚ) :=
  topN df (·.name) 10

/-- `sortDesc` really sorts: its output is pairwise non-increasing in the
value component. -/
theorem sortDesc_pairwise {β : Type} (l : List (β × ℚ)) :
    (sortDesc l).Pairwise (fun a b => b.2 ≤ a.2) := by
  haveI : IsTotal (β × ℚ) (fun a b => b.2 ≤ a.2) := ⟨fun a b => le_total b.2 a.2⟩
  haveI : IsTrans (β × ℚ) (fun a b => b.2 ≤ a.2) :=
    ⟨fun _ _ _ hab hbc => le_trans hbc hab⟩
  exact List.sorted_insertionSort _ l

/-- **C7.** The top-n ranker returns at most `n` entries, every returned
value dominates every excluded group's value, the returned sequence
together with the dropped suffix reconstitutes the full descending
ordering of the group sums (prefix consistency), and when at most `n`
distinct groups exist all of them are returned. -/
theorem topN_spec {β : Type} [DecidableEq β] (X : List Transaction)
    (key : Transaction → β) (n : Nat) (hn : 0 < n) :
    (topN X key n).length ≤ n ∧
    (∀ p ∈ topN X key n, ∀ q ∈ groupSum X key,
        q ∉ topN X key n → q.2 ≤ p.2) ∧
    (topN X key n).Pairwise (fun a b => b.2 ≤ a.2) ∧
    topN X key n ++ (sortDesc (groupSum X key)).drop n
      = sortDesc (groupSum X key) ∧
    ((groupSum X key).length ≤ n →
        (topN X key n).length = (groupSum X key).length ∧
        ∀ q ∈ groupSum X key, q ∈ topN X key n) := by
  have hperm : (sortDesc (groupSum X key)).Perm (groupSum X key) :=
    sortDesc_perm _
  have hsort := sortDesc_pairwise (groupSum X key)
  refine ⟨?_, ?_, ?_, List.take_append_drop n _, ?_⟩
  · simpa [topN, List.length_take] using min_le_left n _
  · intro p hp q hq hqn
    have hqs : q ∈ sortDesc (groupSum X key) := hperm.mem_iff.mpr hq
    rw [← List.take_append_drop n (sortDesc (groupSum X key))] at hqs hsort
    rcases List.mem_append.mp hqs with h | h
    · exact absurd h hqn
    · exact (List.pairwise_append.mp hsort).2.2 p hp q h
  · exact List.Pairwise.sublist (List.take_sublist n _) hsort
  · intro hlen
    have hslen : (sortDesc (groupSum X key)).length ≤ n := by
      rw [hperm.length_eq]; exact hlen
    have htake : topN X key n = sortDesc (groupSum X key) :=
      List.take_of_length_le hslen
    constructor
    · rw [htake, hperm.length_eq]
    · intro q hq
      rw [htake]
      exact hperm.mem_iff.mpr hq

/-- Witness for C7 at the sample table, product dimension, `n = 1`:
one entry is returned and the excluded group's value `100` is dominated
by the returned value `200`. -/
theorem topN_spec_witness :
    (topN sampleDf (fun r => r.product_name) 1).length ≤ 1 ∧
    (("P1", (100 : ℚ)) : String × ℚ).2 ≤ (("P2", (200 : ℚ)) : String × ℚ).2 := by
  have h := topN_spec sampleDf (fun r => r.product_name) 1 (by decide)
  have hg : groupSum sampleDf (fun r => r.product_name)
      = [("P1", (100 : ℚ)), ("P2", (200 : ℚ))] := by
    simp [groupSum, sampleDf, total_sales, List.dedup, List.pwFilter, List.filter]
  refine ⟨h.1, ?_⟩
  refine h.2.1 ("P2", (200 : ℚ)) ?_ ("P1", (100 : ℚ)) ?_ ?_
  · simp only [topN]
    rw [hg]
    norm_num [sortDesc, List.insertionSort, List.orderedInsert]
  · rw [hg]
    norm_num
  · simp only [topN]
    rw [hg]
    norm_num [sortDesc, List.insertionSort, List.orderedInsert]

end Dashboard

namespace Dashboard

/-- `app.py` line 258: `filtered_sales.groupby('date')['total'].sum()`;
pandas `groupby` emits the date keys in ascending order. -/
def daily_sales (df : List Transaction) : List (Int × ℚ) :=
  (groupSum df (·.date)).insertionSort (fun a b => a.1 ≤ b.1)

/-- pandas `Series.cumsum()`, with explicit running accumulator. -/
def cumsumFrom (acc : ℚ) : List ℚ → List ℚ
  | [] => []
  | x :: xs => (acc + x) :: cumsumFrom (acc + x) xs

/-- pandas `Series.cumsum()` started from `0`. -/
def cumsum (l : List ℚ) : List ℚ :=
  cumsumFrom 0 l

/-- `app.py` line 272:
`daily_sales['cumulative'] = daily_sales['total'].cumsum()`. -/
def cumulative (df : List Transaction) : List ℚ :=
  cumsum ((daily_sales df).map Prod.snd)

/-- `cumsumFrom` preserves length. -/
theorem cumsumFrom_length (l : List ℚ) :
    ∀ a : ℚ, (cumsumFrom a l).length = l.length := by
  induction l with
  | nil => intro a; rfl
  | cons x xs ih => intro a; simp [cumsumFrom, ih]

/-- Recurrence of the running sum: each entry is the previous entry plus
the current period value. -/
theorem cumsumFrom_getD_succ (l : List ℚ) :
    ∀ (a : ℚ) (i : Nat), i + 1 < l.length →
      (cumsumFrom a l).getD (i + 1) 0
        = (cumsumFrom a l).getD i 0 + l.getD (i + 1) 0 := by
  induction l with
  | nil => intro a i h; simp at h
  | cons x xs ih =>
    intro a i h
    cases i with
    | zero =>
      cases xs with
      | nil => simp at h
      | cons y ys =>
        show (cumsumFrom (a + x) (y :: ys)).getD 0 0 = (a + x) + (y :: ys).getD 0 0
        simp [cumsumFrom]
    | succ j =>
      have h' : j + 1 < xs.length := by
        simpa using Nat.lt_of_succ_lt_succ h
      show (cumsumFrom (a + x) xs).getD (j + 1) 0
        = (cumsumFrom (a + x) xs).getD j 0 + xs.getD (j + 1) 0
      exact ih (a + x) j h'

/-- With non-negative period values the running sum is adjacentwise
non-decreasing. -/
theorem cumsumFrom_chain (l : List ℚ) :
    ∀ a : ℚ, (∀ q ∈ l, 0 ≤ q) → List.Chain' (· ≤ ·) (cumsumFrom a l) := by
  induction l with
  | nil => intro a _; simp [cumsumFrom]
  | cons x xs ih =>
    intro a h
    show List.Chain' (· ≤ ·) ((a + x) :: cumsumFrom (a + x) xs)
    rw [List.chain'_cons']
    refine ⟨?_, ih (a + x) (fun q hq => h q (List.mem_cons_of_mem x hq))⟩
    intro y hy
    cases xs with
    | nil => simp [cumsumFrom] at hy
    | cons z zs =>
      have hz : a + x + z = y := by
        simpa [cumsumFrom] using hy
      have h0 : 0 ≤ z := h z (by simp)
      rw [← hz]
      linarith

/-- The last entry of the running sum is the initial accumulator plus the
sum of all period values. -/
theorem cumsumFrom_getLast (l : List ℚ) :
    ∀ a : ℚ, l ≠ [] → (cumsumFrom a l).getLast? = some (a + l.sum) := by
  induction l with
  | nil => intro a h; exact absurd rfl h
  | cons x xs ih =>
    intro a _
    cases xs with
    | nil =>
      show [(a + x)].getLast? = some (a + [x].sum)
      simp
    | cons y ys =>
      have htail := ih (a + x) (by simp)
      show ((a + x) :: cumsumFrom (a + x) (y :: ys)).getLast?
        = some (a + (x :: y :: ys).sum)
      rw [show cumsumFrom (a + x) (y :: ys)
            = (a + x + y) :: cumsumFrom (a + x + y) ys from rfl] at htail ⊢
      rw [List.getLast?_cons_cons, htail]
      congr 1
      simp only [List.sum_cons]
      ring

/-- A non-empty table yields a non-empty daily series. -/
theorem daily_sales_ne_nil {X : List Transaction} (h : X ≠ []) :
    daily_sales X ≠ [] := by
  obtain ⟨r, hr⟩ : ∃ r, r ∈ X := by
    cases X with
    | nil => exact absurd rfl h
    | cons s ss => exact ⟨s, List.mem_cons_self s ss⟩
  have hd : r.date ∈ (X.map (·.date)).dedup :=
    List.mem_dedup.mpr (List.mem_map_of_mem (·.date) hr)
  have hgs : (r.date,
      total_sales (X.filter (fun x => decide (x.date = r.date))))
        ∈ groupSum X (·.date) :=
    List.mem_map_of_mem _ hd
  exact List.ne_nil_of_mem
    ((List.perm_insertionSort _ _).mem_iff.mpr hgs)

/-- **C3.** The daily time series: the running total starts at the first
period total, obeys `cumulative[i] = cumulative[i-1] + period[i]`, is
pairwise non-decreasing when all period totals are non-negative, and its
last entry equals the `total_sales` KPI of the same table. -/
theorem daily_series_spec (X : List Transaction) :
    (cumulative X).getD 0 0 = ((daily_sales X).map Prod.snd).getD 0 0 ∧
    (∀ i : Nat, i + 1 < (cumulative X).length →
        (cumulative X).getD (i + 1) 0
          = (cumulative X).getD i 0
              + ((daily_sales X).map Prod.snd).getD (i + 1) 0) ∧
    ((∀ q ∈ (daily_sales X).map Prod.snd, 0 ≤ q) →
        (cumulative X).Pairwise (· ≤ ·)) ∧
    (X ≠ [] → (cumulative X).getLast? = some (total_sales X)) := by
  refine ⟨?_, ?_, ?_, ?_⟩
  · cases hl : (daily_sales X).map Prod.snd with
    | nil => simp [cumulative, cumsum, hl, cumsumFrom]
    | cons t ts => simp [cumulative, cumsum, hl, cumsumFrom]
  · intro i hi
    have hlen : i + 1 < ((daily_sales X).map Prod.snd).length := by
      simpa [cumulative, cumsum, cumsumFrom_length] using hi
    exact cumsumFrom_getD_succ _ 0 i hlen
  · intro hq
    haveI : IsTrans ℚ (· ≤ ·) := ⟨fun _ _ _ => le_trans⟩
    exact List.chain'_iff_pairwise.mp (cumsumFrom_chain _ 0 hq)
  · intro hX
    have hne : (daily_sales X).map Prod.snd ≠ [] := by
      intro h0
      exact daily_sales_ne_nil hX (by simpa using h0)
    rw [cumulative, cumsum, cumsumFrom_getLast _ 0 hne, zero_add]
    congr 1
    calc ((daily_sales X).map Prod.snd).sum
        = ((groupSum X (·.date)).map Prod.snd).sum :=
          List.Perm.sum_eq (List.Perm.map Prod.snd (List.perm_insertionSort _ _))
      _ = total_sales X := groupSum_sum X (·.date)

/-- Witness for C3 at the sample table: the series is `[(1,100), (2,200)]`,
the running total `[100, 300]`, and its last entry is the total-sales KPI
`300`. -/
theorem daily_series_spec_witness :
    (cumulative sampleDf).getD 1 0
      = (cumulative sampleDf).getD 0 0
          + ((daily_sales sampleDf).map Prod.snd).getD 1 0 ∧
    (cumulative sampleDf).Pairwise (· ≤ ·) ∧
    (cumulative sampleDf).getLast? = some (total_sales sampleDf) := by
  have h := daily_series_spec sampleDf
  have hg : groupSum sampleDf (fun r => r.date)
      = [((1 : Int), (100 : ℚ)), (2, 200)] := by
    simp [groupSum, sampleDf, total_sales, List.dedup, List.pwFilter, List.filter]
  have hd : (daily_sales sampleDf).map Prod.snd = [(100 : ℚ), 200] := by
    rw [daily_sales]
    rw [show (fun r : Transaction => r.date) = (·.date) from rfl] at hg
    rw [hg]
    norm_num [List.insertionSort, List.orderedInsert]
  have hc : (cumulative sampleDf).length = 2 := by
    rw [cumulative, cumsum, cumsumFrom_length, hd]
    rfl
  refine ⟨h.2.1 0 (by rw [hc]; norm_num), h.2.2.1 ?_, h.2.2.2 (by decide)⟩
  rw [hd]
  intro q hq
  rcases List.mem_cons.mp hq with rfl | hq'
  · norm_num
  · rcases List.mem_cons.mp hq' with rfl | hq''
    · norm_num
    · simp at hq''

end Dashboard

namespace Dashboard

/-- pandas `pd.cut` (default `right=True`) on one scalar: walk the bin
edges and return the label of the interval `(lo, hi]` containing `v`.
A value at or below the first edge or above the last edge lies in no bin
and gets no label (pandas `NaN`). -/
def cutGo (v : Int) (lo : Int) : List Int → List String → Option String
  | hi :: bins, lab :: labs =>
      if lo < v ∧ v ≤ hi then some lab else cutGo v hi bins labs
  | _, _ => none

/-- pandas `pd.cut(v, bins, labels)` for a single value. -/
def cut (bins : List Int) (labels : List String) (v : Int) : Option String :=
  match bins with
  | lo :: rest => cutGo v lo rest labels
  | [] => none

/-- `app.py` line 170: `pd.cut(customer_df['age'],
bins=[0, 20, 30, 40, 50, 60, 100],
labels=['10대', '20대', '30대', '40대', '50대', '60대+'])` at one age. -/
def ageGroup (a : Int) : Option String :=
  cut [0, 20, 30, 40, 50, 60, 100]
    ["10대", "20대", "30대", "40대", "50대", "60대+"] a

/-- `app.py` line 170 as a table operation: the in-place column assignment
`customer_df['age_group'] = pd.cut(...)`, returning the updated table. -/
def assignAgeGroup (df : List Customer) : List Customer :=
  df.map (fun c => { c with age_group := ageGroup c.age })

/-- The category labels of the `age_group` column, in bucket order. -/
def ageLabels : List String :=
  ["10대", "20대", "30대", "40대", "50대", "60대+"]

/-- `app.py` line 172: `customer_df['age_group'].value_counts().sort_index()`
after the line-170 assignment — per-bucket row counts in category order;
rows whose age fell in no bin hold `NaN` and are dropped by
`value_counts`. -/
def age_dist (df : List Customer) : List (String × Nat) :=
  ageLabels.map (fun lab =>
    (lab, ((assignAgeGroup df).filter
      (fun c => decide (c.age_group = some lab))).length))

/-- **C4, counterexample.** Age `101` is strictly greater than `60` but the
last bin edge is `100`, so `pd.cut` gives it no label at all instead of
the claimed `"60대+"` bucket. -/
theorem ageGroup_over_100_cex :
    (60 : Int) < 101 ∧ ageGroup 101 = none ∧ ageGroup 101 ≠ some "60대+" := by
  refine ⟨by decide, by decide, by decide⟩

/-- **C4, amended.** For ages in `(0, 100]` the bucketing maps each age to
exactly the bucket of the boundary set `(0,20], (20,30], (30,40], (40,50],
(50,60], (60,100]`, upper bounds inclusive — in particular `20 ↦ "10대"`
and `21 ↦ "20대"`; ages above `100` fall outside every bin and receive no
bucket. -/
theorem ageGroup_buckets (a : Int) (h0 : 0 < a) (h100 : a ≤ 100) :
    ageGroup a = some (if a ≤ 20 then "10대" else if a ≤ 30 then "20대"
      else if a ≤ 40 then "30대" else if a ≤ 50 then "40대"
      else if a ≤ 60 then "50대" else "60대+") := by
  simp only [ageGroup, cut, cutGo]
  split_ifs <;> first | rfl | (exfalso; omega)

/-- Witness for the amended C4 at the boundary ages `20` and `21`. -/
theorem ageGroup_buckets_witness :
    ageGroup 20 = some "10대" ∧ ageGroup 21 = some "20대" := by
  constructor
  · simpa using ageGroup_buckets 20 (by decide) (by decide)
  · simpa using ageGroup_buckets 21 (by decide) (by decide)

/-- A customer row with age `0`, the failing input of C5. -/
def sampleCustomerZero : Customer :=
  { customer_id := 1, name := "Park", age := 0, gender := "F",
    region := "North", segment := "A" }

/-- **C5.** On a customer table containing an age-`0` row the code raises
nothing: `pd.cut` labels the row `NaN` (bin edges start at `0`, left-open),
and `value_counts` silently drops it, leaving every bucket count `0`.  The
claimed `OutOfDomainValue` error does not exist in the code. -/
theorem age_zero_dropped :
    ageGroup 0 = none ∧
    (age_dist [sampleCustomerZero]).map Prod.snd = [0, 0, 0, 0, 0, 0] := by
  refine ⟨by decide, by decide⟩

/-- A customer row with age `25` and no stored `age_group`, as constructed
by the Data Source before any aggregation runs. -/
def sampleCustomer25 : Customer :=
  { customer_id := 2, name := "Choi", age := 25, gender := "M",
    region := "South", segment := "B" }

/-- **C9, counterexample.** Line 170 mutates the customer table: after the
age-group aggregation step the table differs from the constructed one —
the derived bucket has been stored onto the record. -/
theorem assignAgeGroup_mutates_cex :
    assignAgeGroup [sampleCustomer25] ≠ [sampleCustomer25] := by
  decide

/-- A customer row with the derived column forgotten. -/
def stripAgeGroup (c : Customer) : Customer :=
  { c with age_group := none }

/-- **C9, amended.** Filtering returns a sublist of the intact source
transaction rows (the sales table is never altered), while the customer
table is mutated exactly as line 170 writes it: only the `age_group`
attribute changes, every other attribute is preserved, and the stored
value is precisely the derived bucket of the row's age. -/
theorem engine_mutation_spec (df : List Transaction) (cdf : List Customer)
    (date_start date_end : Int) (regions categories : List String) :
    (filtered_sales df date_start date_end regions categories).Sublist df ∧
    (assignAgeGroup cdf).map stripAgeGroup = cdf.map stripAgeGroup ∧
    (assignAgeGroup cdf).map (·.age_group) = cdf.map (fun c => ageGroup c.age) := by
  refine ⟨List.filter_sublist _, ?_, ?_⟩
  · rw [assignAgeGroup, List.map_map]
    rfl
  · rw [assignAgeGroup, List.map_map]
    rfl

end Dashboard
